import Mathlib

/-!
Verification of the Elo rating functions of the `skillratings` crate
(`src/elo.rs`). Floating-point doubles are modelled as real numbers, i.e.
the arithmetic of the source is taken in exact arithmetic; `f64::mul_add`
(fused multiply-add, exact in real arithmetic) becomes `a * b + c`.
-/

namespace Skillratings

/-- Modelled from the spec: the `EloRating` struct of `rating.rs` (not part of
the excerpt) is a single-field wrapper holding a double-precision rating. -/
structure EloRating where
  rating : ℝ

/-- Modelled from the spec: the `Outcomes` enum of `outcomes.rs` (not part of
the excerpt), a closed enumeration of WIN, LOSS, DRAW, interpreted from the
perspective of `player_one`. -/
inductive Outcomes where
  | WIN
  | LOSS
  | DRAW

/-- Modelled from the spec: the `EloConfig` struct of `config.rs` (not part of
the excerpt), holding the single tunable K-factor `k`. -/
structure EloConfig where
  k : ℝ

/-- Modelled from the spec: the `EloConfig::new` constructor returns the
default K-factor 32.0. -/
noncomputable def EloConfig.new : EloConfig := ⟨32⟩

/-- Modelled from the spec: the `EloRating::new` constructor returns the
default starting rating 1000.0. -/
noncomputable def EloRating.new : EloRating := ⟨1000⟩

/-- Exact-arithmetic model of `f64::mul_add`: `mulAdd a b c = a * b + c`
(fused multiply-add has no intermediate rounding, so it coincides with the
plain expression over the reals). -/
noncomputable def mulAdd (a b c : ℝ) : ℝ := a * b + c

/-- Embedding of `expected_score` from `src/elo.rs` (lines 122-128). -/
noncomputable def expected_score (player_one player_two : EloRating) : ℝ × ℝ :=
  (1 / (1 + (10 : ℝ) ^ ((player_two.rating - player_one.rating) / 400)),
   1 / (1 + (10 : ℝ) ^ ((player_one.rating - player_two.rating) / 400)))

/-- Embedding of `elo` from `src/elo.rs` (lines 30-57). -/
noncomputable def elo (player_one player_two : EloRating) (outcome : Outcomes)
    (config : EloConfig) : EloRating × EloRating :=
  let es := expected_score player_one player_two
  let one_expected := es.1
  let two_expected := es.2
  let o : ℝ :=
    match outcome with
    | Outcomes.WIN => 1.0
    | Outcomes.LOSS => 0.0
    | Outcomes.DRAW => 0.5
  let one_new_elo := mulAdd config.k (o - one_expected) player_one.rating
  let two_new_elo := mulAdd config.k ((1.0 - o) - two_expected) player_two.rating
  (⟨one_new_elo⟩, ⟨two_new_elo⟩)

/-- Embedding of `elo_rating_period` from `src/elo.rs` (lines 90-102): the
`for` loop over `results` threading the player's rating through successive
`elo` calls, discarding the opponent-side result each step. -/
noncomputable def elo_rating_period (player : EloRating)
    (results : List (EloRating × Outcomes)) (config : EloConfig) : EloRating :=
  match results with
  | [] => player
  | (opponent, result) :: rest =>
      elo_rating_period (elo player opponent result config).1 rest config

/-- Spec-side observed score of `player_one` for an outcome:
WIN → 1.0, LOSS → 0.0, DRAW → 0.5. -/
noncomputable def Outcomes.score : Outcomes → ℝ
  | Outcomes.WIN => 1.0
  | Outcomes.LOSS => 0.0
  | Outcomes.DRAW => 0.5

/-- The base-10 power of any real exponent is positive. -/
lemma ten_rpow_pos (x : ℝ) : 0 < (10 : ℝ) ^ x :=
  Real.rpow_pos_of_pos (by norm_num) x

/-- The two components of `expected_score` sum to 1 in exact arithmetic. -/
lemma expected_score_add (a b : EloRating) :
    (expected_score a b).1 + (expected_score a b).2 = 1 := by
  unfold expected_score
  have hneg : (a.rating - b.rating) / 400 = -((b.rating - a.rating) / 400) := by
    ring
  have ht : (0 : ℝ) < (10 : ℝ) ^ ((b.rating - a.rating) / 400) :=
    ten_rpow_pos _
  simp only [hneg, Real.rpow_neg (by norm_num : (0:ℝ) ≤ 10)]
  have h1 : (1 : ℝ) + (10 : ℝ) ^ ((b.rating - a.rating) / 400) ≠ 0 := by
    positivity
  field_simp
  ring

/-- Each component of `expected_score` lies strictly between 0 and 1. -/
lemma expected_score_bounds (a b : EloRating) :
    (0 < (expected_score a b).1 ∧ (expected_score a b).1 < 1) ∧
    (0 < (expected_score a b).2 ∧ (expected_score a b).2 < 1) := by
  unfold expected_score
  have h1 := ten_rpow_pos ((b.rating - a.rating) / 400)
  have h2 := ten_rpow_pos ((a.rating - b.rating) / 400)
  constructor <;> constructor
  · positivity
  · rw [div_lt_one (by linarith)]
    linarith
  · positivity
  · rw [div_lt_one (by linarith)]
    linarith

/-- C1: for every pair of ratings, every outcome, and every config with
K-factor K, `elo` returns exactly
`(rating_one + K * (o - expected_one), rating_two + K * ((1 - o) - expected_two))`,
where `(expected_one, expected_two) = expected_score rating_one rating_two`
and the observed score `o` is 1.0 for WIN, 0.0 for LOSS and 0.5 for DRAW. -/
theorem elo_formula (a b : EloRating) (outcome : Outcomes) (config : EloConfig) :
    elo a b outcome config =
      (⟨a.rating + config.k * (outcome.score - (expected_score a b).1)⟩,
       ⟨b.rating + config.k * ((1 - outcome.score) - (expected_score a b).2)⟩) := by
  cases outcome <;>
    simp only [elo, mulAdd, Outcomes.score, Prod.mk.injEq, EloRating.mk.injEq] <;>
    constructor <;> ring

/-- C2: for every pair of ratings, `expected_score` returns exactly the
logistic pair
`(1 / (1 + 10^((r2 - r1) / 400)), 1 / (1 + 10^((r1 - r2) / 400)))`. -/
theorem expected_score_formula (a b : EloRating) :
    expected_score a b =
      (1 / (1 + (10 : ℝ) ^ ((b.rating - a.rating) / 400)),
       1 / (1 + (10 : ℝ) ^ ((a.rating - b.rating) / 400))) := rfl

/-- C3: `elo` is zero-sum — for all ratings, outcomes and configs, the sum
of the two new ratings equals the sum of the two old ratings (equivalently,
the two deltas are exact negatives of each other) in exact arithmetic. -/
theorem elo_zero_sum (a b : EloRating) (outcome : Outcomes) (config : EloConfig) :
    (elo a b outcome config).1.rating + (elo a b outcome config).2.rating =
      a.rating + b.rating := by
  have h := expected_score_add a b
  cases outcome <;> simp only [elo, mulAdd] <;> linear_combination (-config.k) * h

/-- C4: `elo_rating_period` equals the sequential left fold that, at each
step, calls `elo` with the player's current (already-updated) rating and the
opponent's original rating, keeping only the player-side result. -/
theorem elo_rating_period_foldl (p : EloRating)
    (results : List (EloRating × Outcomes)) (c : EloConfig) :
    elo_rating_period p results c =
      results.foldl (fun q r => (elo q r.1 r.2 c).1) p := by
  induction results generalizing p with
  | nil => rfl
  | cons head tail ih =>
      obtain ⟨opponent, result⟩ := head
      simp only [elo_rating_period, List.foldl_cons]
      exact ih _

/-- C5: for every pair of ratings, the two components of `expected_score`
sum to exactly 1 in exact arithmetic. -/
theorem expected_score_sum_one (a b : EloRating) :
    (expected_score a b).1 + (expected_score a b).2 = 1 :=
  expected_score_add a b

/-- C6: swapping the players and inverting the outcome is equivalent:
`(elo a b WIN c).1 = (elo b a LOSS c).2` and
`(elo a b WIN c).2 = (elo b a LOSS c).1`. -/
theorem elo_swap_invert (a b : EloRating) (c : EloConfig) :
    (elo a b Outcomes.WIN c).1 = (elo b a Outcomes.LOSS c).2 ∧
    (elo a b Outcomes.WIN c).2 = (elo b a Outcomes.LOSS c).1 := by
  constructor <;>
    simp only [elo, mulAdd, expected_score, EloRating.mk.injEq] <;> ring

/-- C7: `elo_rating_period` applied to an empty results sequence returns the
input rating unchanged. -/
theorem elo_rating_period_nil (p : EloRating) (c : EloConfig) :
    elo_rating_period p [] c = p := rfl

/-- C8: with both ratings equal to 1000.0 and a config whose K-factor is 32,
`elo` with outcome WIN returns exactly `(1016.0, 984.0)`. -/
theorem elo_equal_thousand_win :
    elo ⟨1000⟩ ⟨1000⟩ Outcomes.WIN ⟨32⟩ = (⟨1016⟩, ⟨984⟩) := by
  simp only [elo, mulAdd, expected_score, Prod.mk.injEq, EloRating.mk.injEq]
  norm_num

/-- C9: `expected_score` is swap-antisymmetric: swapping the two ratings
swaps the two components of the result. -/
theorem expected_score_swap (a b : EloRating) :
    expected_score b a = ((expected_score a b).2, (expected_score a b).1) := rfl

/-- C10: with a positive K-factor, `elo` with outcome WIN strictly increases
player_one's rating and strictly decreases player_two's rating, for all
ratings. -/
theorem elo_win_strict (a b : EloRating) (c : EloConfig) (hk : 0 < c.k) :
    a.rating < (elo a b Outcomes.WIN c).1.rating ∧
    (elo a b Outcomes.WIN c).2.rating < b.rating := by
  obtain ⟨⟨h1a, h1b⟩, ⟨h2a, h2b⟩⟩ := expected_score_bounds a b
  simp only [elo, mulAdd]
  constructor
  · nlinarith
  · nlinarith

/-- Witness for C10 at the concrete input `a = 1000`, `b = 1200`, `k = 32`. -/
theorem elo_win_strict_witness :
    0 < (EloConfig.mk 32).k ∧
    ((EloRating.mk 1000).rating <
        (elo ⟨1000⟩ ⟨1200⟩ Outcomes.WIN ⟨32⟩).1.rating ∧
      (elo ⟨1000⟩ ⟨1200⟩ Outcomes.WIN ⟨32⟩).2.rating <
        (EloRating.mk 1200).rating) :=
  ⟨by norm_num, elo_win_strict ⟨1000⟩ ⟨1200⟩ ⟨32⟩ (by norm_num)⟩

end Skillratings
